import Mathlib

/-!
Shallow embedding of the campaign send pipeline of the ses-starter
repository: the template renderer (`src/lib/email-utils.ts`), the template
variable extraction and template save operations (`src/lib/storage.ts`),
and the campaign runner `handleSendEmails` (`src/pages/Settings.tsx`),
together with the pacing policy it applies between sends.

JavaScript conventions modelled explicitly:
- a thrown value is `Option String`: `some m` is an `Error` with message
  `m`, `none` is a non-`Error` value, which the code turns into the
  string "Unknown error" via `err instanceof Error ? err.message : ...`;
- string truthiness: the empty string is falsy, so `x || d` on strings is
  `jsOrStr`;
- `String.prototype.split(' ')` keeps empty segments (`splitOnPred`);
- `RegExp` scanning for `/\{\{(\w+)\}\}/g` is the fuel-indexed scanner
  `scanVarsAux` (fuel bounds the scan position, so the definition is
  structurally recursive and kernel-computable);
- `String.prototype.replace(regex, value)` with a global literal pattern
  is `replaceAux` (dollar-sign escape sequences in the replacement value
  are not modelled; no substitution value in the claims uses them).

The transport (`awsSESService.sendEmail`) and the history recorder
(`storage.recordSentEmail`) are external collaborators; a run supplies
their behavior per recipient through `StepBehavior`: the transport call
either resolves `{success: true, messageId}`, resolves
`{success: false, error}`, or rejects; each `recordSentEmail` call either
resolves or rejects.
-/

/-- Status of a send-history record (`SentEmail.status` in `types.ts`). -/
inductive SendStatus
  | sent
  | failed
  | bounced
deriving DecidableEq

/-- A recipient (`Contact` in `types.ts`); `ctype` stands for the `type`
field. -/
structure Contact where
  id : String
  email : String
  name : String
  company : Option String := none
  tags : List String := []
  ctype : String := "default"
  createdAt : String := ""
  lastEmailed : Option String := none
deriving DecidableEq

/-- A sender identity (`SenderProfile` in `types.ts`). -/
structure SenderProfile where
  id : String
  name : String
  email : String
  profilePictureUrl : Option String := none
  isDefault : Bool := false
  signature : Option String := none
deriving DecidableEq

/-- A message template (`EmailTemplate` in `types.ts`). -/
structure EmailTemplate where
  id : String
  name : String
  subject : String
  htmlContent : String
  textContent : String
  varNames : List String
  createdAt : String
  updatedAt : String
deriving DecidableEq

/-- AWS credentials block (`AWSSettings` in `types.ts`); the runner only
tests its presence. -/
structure AWSSettingsModel where
  region : String := ""
  accessKeyId : String := ""
  secretAccessKey : String := ""
  fromEmail : String := ""
  replyToEmail : Option String := none
deriving DecidableEq

/-- Application settings (`AppSettings` in `types.ts`).  `aws` is optional
because `handleSendEmails` guards on `settings?.aws`; the rate limit is
optional because a missing or zero value is falsy in the pacing check. -/
structure AppSettingsModel where
  aws : Option AWSSettingsModel := none
  defaultSenderProfileId : Option String := none
  rateLimitPerSecond : Option ℚ := none
  batchSize : Nat := 0
deriving DecidableEq

/-- The payload handed to `storage.recordSentEmail`
(`Omit<SentEmail, 'id' | 'sentAt'>`); the collaborator assigns the
identifier and timestamp. -/
structure SentEmailData where
  contactId : String
  templateId : String
  senderProfileId : String
  subject : String
  status : SendStatus
  messageId : Option String := none
  error : Option String := none
deriving DecidableEq

/-- JavaScript `err instanceof Error ? err.message : 'Unknown error'`. -/
def jsErrMsg : Option String → String
  | some m => m
  | none => "Unknown error"

/-- JavaScript `x || d` on an optional string: absent and empty values are
falsy. -/
def jsOrStr (o : Option String) (dflt : String) : String :=
  match o with
  | some s => if s == "" then dflt else s
  | none => dflt

/-- JavaScript truthiness of an optional string. -/
def otruthy : Option String → Bool
  | some s => !(s == "")
  | none => false

/-- JavaScript `str.split(c)` at character level: split on every character
satisfying `p`, keeping empty segments (so `"a  b"` gives three segments
and `""` gives one empty segment). -/
def splitOnPred (p : Char → Bool) : List Char → List (List Char)
  | [] => [[]]
  | c :: cs =>
    if p c then [] :: splitOnPred p cs
    else
      match splitOnPred p cs with
      | t :: ts => (c :: t) :: ts
      | [] => [[c]]

/-- JavaScript `arr.join(' ')` at character level. -/
def joinSpace : List (List Char) → List Char
  | [] => []
  | [t] => t
  | t :: ts => t ++ ' ' :: joinSpace ts

/-- The `firstName` value of `EmailUtils.processTemplate`
(`email-utils.ts` line 14): `contact.name.split(' ')[0] || contact.name`. -/
def jsFirstName (name : String) : String :=
  match splitOnPred (fun c => c == ' ') name.data with
  | [] => name
  | t :: _ => if t.isEmpty then name else String.mk t

/-- The `lastName` value of `EmailUtils.processTemplate`
(`email-utils.ts` line 15):
`contact.name.split(' ').slice(1).join(' ') || ''`. -/
def jsLastName (name : String) : String :=
  let s := String.mk (joinSpace ((splitOnPred (fun c => c == ' ') name.data).drop 1))
  if s == "" then "" else s

/-- One pass of JavaScript `content.replace(regex, value)` for a global
regex that is a literal string: replace non-overlapping occurrences left
to right without rescanning the replacement.  The fuel argument bounds
the scan position; `jsReplaceAll` supplies the content length, which is
always sufficient for a non-empty pattern. -/
def replaceAux (pat rep : List Char) : Nat → List Char → List Char
  | 0, cs => cs
  | _ + 1, [] => []
  | fuel + 1, c :: cs =>
    if pat.isPrefixOf (c :: cs) then rep ++ replaceAux pat rep fuel ((c :: cs).drop pat.length)
    else c :: replaceAux pat rep fuel cs

/-- JavaScript global literal-pattern replace on strings. -/
def jsReplaceAll (content pat rep : String) : String :=
  String.mk (replaceAux pat.data rep.data content.data.length content.data)

/-- The `variables` object built by `EmailUtils.processTemplate`
(`email-utils.ts` lines 10-19), in its insertion order. -/
def substitutions (contact : Contact) (senderProfile : Option SenderProfile) :
    List (String × String) :=
  [("name", contact.name),
   ("email", contact.email),
   ("company", contact.company.getD ""),
   ("firstName", jsFirstName contact.name),
   ("lastName", jsLastName contact.name),
   ("senderName", (senderProfile.map SenderProfile.name).getD ""),
   ("senderEmail", (senderProfile.map SenderProfile.email).getD ""),
   ("senderSignature", ((senderProfile.bind SenderProfile.signature)).getD "")]

/-- `EmailUtils.replaceVariables`: for each key in insertion order replace
every occurrence of the braced key by its value. -/
def replaceVariables (content : String) (vars : List (String × String)) : String :=
  vars.foldl (fun acc kv => jsReplaceAll acc ("\x7b\x7b" ++ kv.1 ++ "\x7d\x7d") kv.2) content

/-- The rendered message triple produced by `EmailUtils.processTemplate`. -/
structure ProcessedTemplate where
  subject : String
  htmlContent : String
  textContent : String
deriving DecidableEq

/-- `EmailUtils.processTemplate` (`email-utils.ts` lines 5-26). -/
def processTemplate (template : EmailTemplate) (contact : Contact)
    (senderProfile : Option SenderProfile) : ProcessedTemplate :=
  { subject := replaceVariables template.subject (substitutions contact senderProfile),
    htmlContent := replaceVariables template.htmlContent (substitutions contact senderProfile),
    textContent := replaceVariables template.textContent (substitutions contact senderProfile) }

/-- A word character of the regex class `\w` (no unicode flag). -/
def isWordChar (c : Char) : Bool := c.isAlphanum || c == '_'

/-- One attempt of the regex `/\{\{(\w+)\}\}/g` at the front of the list:
two opening braces, a maximal non-empty run of word characters, two
closing braces.  Returns the captured name and the remainder after the
match. -/
def matchToken (cs : List Char) : Option (List Char × List Char) :=
  match cs with
  | '{' :: '{' :: rest =>
    let w := rest.takeWhile isWordChar
    if w.isEmpty then none
    else
      match rest.dropWhile isWordChar with
      | '}' :: '}' :: tail => some (w, tail)
      | _ => none
  | _ => none

/-- The scan loop of `extractVariables` (`storage.ts` lines 288-300): walk
the content left to right; at each position either take the regex match
and continue after it, or advance one character. -/
def scanVarsAux : Nat → List Char → List String
  | 0, _ => []
  | _ + 1, [] => []
  | fuel + 1, c :: cs =>
    match matchToken (c :: cs) with
    | some (w, tail) => String.mk w :: scanVarsAux fuel tail
    | none => scanVarsAux fuel cs

/-- All captured names of `/\{\{(\w+)\}\}/g` over the content, in match
order, with duplicates. -/
def scanVars (cs : List Char) : List String := scanVarsAux cs.length cs

/-- The `if (!variables.includes(match[1])) variables.push(match[1])` step
of `extractVariables`. -/
def addDistinct (acc : List String) (v : String) : List String :=
  if acc.contains v then acc else acc ++ [v]

/-- `LocalStorage.extractVariables` (`storage.ts` lines 288-300): distinct
captured names in first-occurrence order. -/
def extractVariables (content : String) : List String :=
  (scanVars content.data).foldl addDistinct []

/-- The caller-supplied part of a template
(`Omit<EmailTemplate, 'id' | 'createdAt' | 'updatedAt' | 'variables'>`). -/
structure TemplateFormInput where
  name : String
  subject : String
  htmlContent : String
  textContent : String
deriving DecidableEq

/-- `LocalStorage.createTemplate` (`storage.ts` lines 147-163), with the
generated identifier and timestamp passed in; the list load/save around
the constructed template is the storage collaborator. -/
def createTemplate (d : TemplateFormInput) (id now : String) : EmailTemplate :=
  { id := id, name := d.name, subject := d.subject,
    htmlContent := d.htmlContent, textContent := d.textContent,
    varNames := extractVariables (d.htmlContent ++ " " ++ d.textContent),
    createdAt := now, updatedAt := now }

/-- A `Partial<EmailTemplate>` update as used by `updateTemplate`; only
the content fields, which are the ones that feed the variables
recomputation, are modelled (`id`, timestamp and `variables` overrides do
not affect the stored `variables`, which is assigned after the spread). -/
structure TemplateUpdate where
  name : Option String := none
  subject : Option String := none
  htmlContent : Option String := none
  textContent : Option String := none
deriving DecidableEq

/-- `LocalStorage.updateTemplate` (`storage.ts` lines 165-188) applied to
the found template: re-extract variables only when a truthy `htmlContent`
or `textContent` is supplied, reading each content field as
`updates.field || existing.field`; then spread the updates over the
stored template. -/
def updateTemplate (t : EmailTemplate) (u : TemplateUpdate) (now : String) : EmailTemplate :=
  let varNames :=
    if otruthy u.htmlContent || otruthy u.textContent then
      extractVariables
        (jsOrStr u.htmlContent t.htmlContent ++ " " ++ jsOrStr u.textContent t.textContent)
    else t.varNames
  { id := t.id, name := u.name.getD t.name, subject := u.subject.getD t.subject,
    htmlContent := u.htmlContent.getD t.htmlContent,
    textContent := u.textContent.getD t.textContent,
    varNames := varNames, createdAt := t.createdAt, updatedAt := now }

/-- Outcome of one `sesService.sendEmail` invocation: resolve with
`{success: true, messageId}`, resolve with `{success: false, error}`, or
reject with a thrown value. -/
inductive TransportOutcome
  | ok (messageId : Option String)
  | err (error : Option String)
  | exn (e : Option String)
deriving DecidableEq

/-- External behavior supplied for one recipient iteration: the transport
outcome, the outcome of the first `recordSentEmail` call of the iteration
(`none` resolves, `some e` rejects with `e`), the outcome of the
`recordSentEmail` call inside the catch block when one happens, and the
`Math.random()` draw used by chill-mode pacing. -/
structure StepBehavior where
  transport : TransportOutcome
  rec1 : Option (Option String) := none
  rec2 : Option (Option String) := none
  rand : ℚ := 0
deriving DecidableEq

/-- The two pacing inputs read by the loop: the `chillMode` flag and
`settings.rateLimitPerSecond`. -/
structure RunConfig where
  chillMode : Bool
  rateLimitPerSecond : Option ℚ
deriving DecidableEq

/-- The pacing sleep executed at the bottom of each loop iteration
(`Settings.tsx` lines 737-743): chill mode sleeps
`2000 + Math.random() * 1000`; otherwise a truthy rate sleeps
`1000 / rate`; otherwise no sleep. -/
def stepDelay (cfg : RunConfig) (rand : ℚ) : Option ℚ :=
  if cfg.chillMode then some (2000 + rand * 1000)
  else
    match cfg.rateLimitPerSecond with
    | some r => if r = 0 then none else some (1000 / r)
    | none => none

/-- Effect of one loop body execution (`Settings.tsx` lines 686-735):
counter increments, appended error entries, history records actually
written, and whether an exception escaped the per-recipient try/catch
(which only a rejection of the `recordSentEmail` call inside the catch
block can cause). -/
structure StepResult where
  dSent : Nat
  dFailed : Nat
  dErrors : List String
  dRecords : List SentEmailData
  aborted : Bool
deriving DecidableEq

/-- The try/catch body of the per-recipient loop in `handleSendEmails`.
On `{success: true}` the counter `sent` is incremented and a `sent` record
with the rendered subject is written; on `{success: false}` the counter
`failed` is incremented, an error entry is pushed, and a `failed` record
with the rendered subject is written; on a thrown exception the catch
block increments `failed`, pushes an error entry, and writes a `failed`
record with the raw template subject (the rendered one is out of scope in
the catch block).  A rejected record call lands in the same catch block;
a rejection inside the catch block escapes the iteration. -/
def runStep (tmpl : EmailTemplate) (sender : SenderProfile) (c : Contact)
    (b : StepBehavior) : StepResult :=
  let processed := processTemplate tmpl c (some sender)
  match b.transport with
  | TransportOutcome.ok mid =>
    match b.rec1 with
    | none =>
      { dSent := 1, dFailed := 0, dErrors := [],
        dRecords := [{ contactId := c.id, templateId := tmpl.id, senderProfileId := sender.id,
                       subject := processed.subject, status := SendStatus.sent,
                       messageId := mid, error := none }],
        aborted := false }
    | some e =>
      let msg := jsErrMsg e
      match b.rec2 with
      | none =>
        { dSent := 1, dFailed := 1, dErrors := [c.email ++ ": " ++ msg],
          dRecords := [{ contactId := c.id, templateId := tmpl.id, senderProfileId := sender.id,
                         subject := tmpl.subject, status := SendStatus.failed,
                         messageId := none, error := some msg }],
          aborted := false }
      | some _ =>
        { dSent := 1, dFailed := 1, dErrors := [c.email ++ ": " ++ msg],
          dRecords := [], aborted := true }
  | TransportOutcome.err er =>
    match b.rec1 with
    | none =>
      { dSent := 0, dFailed := 1,
        dErrors := [c.email ++ ": " ++ jsOrStr er "Unknown error"],
        dRecords := [{ contactId := c.id, templateId := tmpl.id, senderProfileId := sender.id,
                       subject := processed.subject, status := SendStatus.failed,
                       messageId := none, error := er }],
        aborted := false }
    | some e =>
      let msg := jsErrMsg e
      match b.rec2 with
      | none =>
        { dSent := 0, dFailed := 2,
          dErrors := [c.email ++ ": " ++ jsOrStr er "Unknown error", c.email ++ ": " ++ msg],
          dRecords := [{ contactId := c.id, templateId := tmpl.id, senderProfileId := sender.id,
                         subject := tmpl.subject, status := SendStatus.failed,
                         messageId := none, error := some msg }],
          aborted := false }
      | some _ =>
        { dSent := 0, dFailed := 2,
          dErrors := [c.email ++ ": " ++ jsOrStr er "Unknown error", c.email ++ ": " ++ msg],
          dRecords := [], aborted := true }
  | TransportOutcome.exn e =>
    let msg := jsErrMsg e
    match b.rec1 with
    | none =>
      { dSent := 0, dFailed := 1, dErrors := [c.email ++ ": " ++ msg],
        dRecords := [{ contactId := c.id, templateId := tmpl.id, senderProfileId := sender.id,
                       subject := tmpl.subject, status := SendStatus.failed,
                       messageId := none, error := some msg }],
        aborted := false }
    | some _ =>
      { dSent := 0, dFailed := 1, dErrors := [c.email ++ ": " ++ msg],
        dRecords := [], aborted := true }

/-- Observable loop state of a run: the counters and error list, the
history records written so far in write order, the pacing sleeps
performed at the bottom of each completed iteration (`none` is no sleep),
the number of transport invocations, and whether an exception escaped an
iteration. -/
structure LoopState where
  sent : Nat
  failed : Nat
  errors : List String
  records : List SentEmailData
  delays : List (Option ℚ)
  calls : Nat
  aborted : Bool
deriving DecidableEq

/-- The loop state before the first iteration. -/
def initState : LoopState :=
  { sent := 0, failed := 0, errors := [], records := [], delays := [], calls := 0,
    aborted := false }

/-- The `for (const contact of selectedContacts)` loop of
`handleSendEmails` (`Settings.tsx` lines 685-744): run the body, and
unless an exception escaped it, sleep per the pacing policy and continue
with the next recipient.  The pacing sleep runs at the bottom of every
completed iteration, including the last one. -/
def runLoop (tmpl : EmailTemplate) (sender : SenderProfile) (cfg : RunConfig) :
    LoopState → List (Contact × StepBehavior) → LoopState
  | st, [] => st
  | st, (c, b) :: rest =>
    let r := runStep tmpl sender c b
    let st' : LoopState :=
      { sent := st.sent + r.dSent, failed := st.failed + r.dFailed,
        errors := st.errors ++ r.dErrors, records := st.records ++ r.dRecords,
        delays := st.delays, calls := st.calls + 1, aborted := st.aborted }
    if r.aborted then { st' with aborted := true }
    else runLoop tmpl sender cfg { st' with delays := st.delays ++ [stepDelay cfg b.rand] } rest

/-- The aggregate object passed to `setSendResults`. -/
structure RunResult where
  sent : Nat
  failed : Nat
  total : Nat
  errors : List String
deriving DecidableEq

/-- Everything observable from one `handleSendEmails` invocation: records
written, pacing sleeps, transport invocations, and the aggregate result
(`none` when the run never started or an exception escaped the loop, in
which case `setSendResults` is never reached). -/
structure RunOutput where
  records : List SentEmailData
  delays : List (Option ℚ)
  transportCalls : Nat
  result : Option RunResult
deriving DecidableEq

/-- Output of an invocation that refuses to start. -/
def noRun : RunOutput :=
  { records := [], delays := [], transportCalls := 0, result := none }

/-- `handleSendEmails` (`Settings.tsx` lines 670-758): refuse to start
unless a template is selected, the recipient list is non-empty, settings
with an `aws` block are loaded, and a sender is selected; otherwise run
the per-recipient loop and surface the aggregate result. -/
def handleSendEmails (selectedTemplate : Option EmailTemplate)
    (selectedContacts : List (Contact × StepBehavior))
    (settings : Option AppSettingsModel) (selectedSender : Option SenderProfile)
    (chillMode : Bool) : RunOutput :=
  match selectedTemplate, settings, selectedSender with
  | some tmpl, some s, some sender =>
    match s.aws with
    | some _ =>
      match selectedContacts with
      | [] => noRun
      | _ :: _ =>
        let st := runLoop tmpl sender
          { chillMode := chillMode, rateLimitPerSecond := s.rateLimitPerSecond }
          initState selectedContacts
        { records := st.records, delays := st.delays, transportCalls := st.calls,
          result := if st.aborted then none
                    else some { sent := st.sent, failed := st.failed,
                                total := selectedContacts.length, errors := st.errors } }
    | none => noRun
  | _, _, _ => noRun

/-- A run in which every `recordSentEmail` call resolves: the History
Recorder collaborator never fails. -/
@[reducible] def reliableRecorder (pairs : List (Contact × StepBehavior)) : Prop :=
  ∀ p ∈ pairs, p.2.rec1 = none

/-- Whether a transport outcome is `{success: true}`. -/
def isOkOutcome : TransportOutcome → Bool
  | TransportOutcome.ok _ => true
  | _ => false

/-- The single history record an iteration writes when the recorder is
reliable. -/
def expectedRecord (tmpl : EmailTemplate) (sender : SenderProfile)
    (p : Contact × StepBehavior) : SentEmailData :=
  match p.2.transport with
  | TransportOutcome.ok mid =>
    { contactId := p.1.id, templateId := tmpl.id, senderProfileId := sender.id,
      subject := (processTemplate tmpl p.1 (some sender)).subject,
      status := SendStatus.sent, messageId := mid, error := none }
  | TransportOutcome.err er =>
    { contactId := p.1.id, templateId := tmpl.id, senderProfileId := sender.id,
      subject := (processTemplate tmpl p.1 (some sender)).subject,
      status := SendStatus.failed, messageId := none, error := er }
  | TransportOutcome.exn e =>
    { contactId := p.1.id, templateId := tmpl.id, senderProfileId := sender.id,
      subject := tmpl.subject, status := SendStatus.failed, messageId := none,
      error := some (jsErrMsg e) }

/-- The aggregate error entry an iteration pushes when the recorder is
reliable: `none` on transport success, otherwise the
`"<email>: <reason>"` string. -/
def expectedEntry (p : Contact × StepBehavior) : Option String :=
  match p.2.transport with
  | TransportOutcome.ok _ => none
  | TransportOutcome.err er => some (p.1.email ++ ": " ++ jsOrStr er "Unknown error")
  | TransportOutcome.exn e => some (p.1.email ++ ": " ++ jsErrMsg e)

/-- Membership statement for a regex token: the content contains two
opening braces, the non-empty all-word-character name, and two closing
braces, in direct sequence. -/
def TokenIn (w cs : List Char) : Prop :=
  w ≠ [] ∧ (∀ c ∈ w, isWordChar c = true) ∧
  ∃ pre post, cs = pre ++ '{' :: '{' :: (w ++ '}' :: '}' :: post)

/-- Token occurrence at string level. -/
def occursToken (v : String) (content : String) : Prop :=
  TokenIn v.data content.data

/-- Whitespace tokenization of a display name, following the
specification wording: the non-empty maximal runs between whitespace
characters. -/
def wsTokens (s : String) : List (List Char) :=
  (splitOnPred Char.isWhitespace s.data).filter (fun t => !t.isEmpty)

/-- The `firstName` the specification describes: first whitespace token. -/
def specFirstName (s : String) : String :=
  String.mk ((wsTokens s).headD [])

/-- The `lastName` the specification describes: remaining whitespace
tokens joined by a single space. -/
def specLastName (s : String) : String :=
  String.mk (joinSpace ((wsTokens s).drop 1))

/-- A list of name tokens joined by single spaces. -/
def joinTokens (toks : List String) : String :=
  String.mk (joinSpace (toks.map String.data))

/-- Sample template for concrete runs; its subject and bodies carry a
placeholder. -/
def sampleTemplate : EmailTemplate :=
  { id := "tpl-1", name := "T", subject := "Hi \x7b\x7bname\x7d\x7d",
    htmlContent := "<p>\x7b\x7bname\x7d\x7d</p>", textContent := "\x7b\x7bname\x7d\x7d",
    varNames := ["name"], createdAt := "t0", updatedAt := "t0" }

/-- Sample sender identity for concrete runs. -/
def sampleSender : SenderProfile :=
  { id := "snd-1", name := "Jane", email := "jane@co.example", isDefault := true }

/-- Sample recipient for concrete runs. -/
def sampleContact : Contact :=
  { id := "c-1", email := "ada@x.example", name := "Ada" }

/-- Second sample recipient for concrete runs. -/
def sampleContactB : Contact :=
  { id := "c-2", email := "bob@x.example", name := "Bob Stone" }

/-- Sample settings with credentials present and no configured rate. -/
def sampleSettings : AppSettingsModel :=
  { aws := some {}, rateLimitPerSecond := none }

/-- Two-recipient behavior list in which the first transport call throws
and the second succeeds; the recorder always resolves. -/
def wPairsA : List (Contact × StepBehavior) :=
  [(sampleContact, { transport := TransportOutcome.exn (some "boom") }),
   (sampleContactB, { transport := TransportOutcome.ok (some "m2") })]

/-- Template form input whose subject carries the only placeholder. -/
def c7Input : TemplateFormInput :=
  { name := "T", subject := "Hi \x7b\x7bname\x7d\x7d", htmlContent := "x", textContent := "y" }

/-- A stored template for exercising `updateTemplate`. -/
def c7Tmpl : EmailTemplate :=
  { id := "tpl-7", name := "U", subject := "s",
    htmlContent := "<p>\x7b\x7bco\x7d\x7d</p>", textContent := "plain",
    varNames := ["co"], createdAt := "t0", updatedAt := "t0" }

/-- An update supplying an empty HTML body together with a non-empty text
body: the truthiness guard passes, the extraction falls back to the old
HTML body, yet the empty string is saved as the new HTML body. -/
def c7Update : TemplateUpdate :=
  { htmlContent := some "", textContent := some "plain2" }

/-- Unfolded form of one reliable iteration: with `rec1 = none` the body
never aborts and contributes exactly the expected counter deltas, error
entry, and history record. -/
theorem runStep_reliable (tmpl : EmailTemplate) (sender : SenderProfile) (c : Contact)
    (b : StepBehavior) (hb : b.rec1 = none) :
    runStep tmpl sender c b =
      { dSent := if isOkOutcome b.transport then 1 else 0,
        dFailed := if isOkOutcome b.transport then 0 else 1,
        dErrors := (expectedEntry (c, b)).toList,
        dRecords := [expectedRecord tmpl sender (c, b)],
        aborted := false } := by
  rcases b with ⟨tr, r1, r2, rand⟩
  simp only at hb
  subst hb
  cases tr <;>
    simp [runStep, isOkOutcome, expectedEntry, expectedRecord, Option.toList]

/-- Reliable-recorder run of the whole loop: every iteration completes,
and the final state accumulates the expected counters, error entries,
records, pacing sleeps and transport calls, in recipient-list order. -/
theorem runLoop_reliable (tmpl : EmailTemplate) (sender : SenderProfile) (cfg : RunConfig)
    (pairs : List (Contact × StepBehavior)) :
    ∀ st : LoopState, (∀ p ∈ pairs, p.2.rec1 = none) →
      runLoop tmpl sender cfg st pairs =
        { sent := st.sent + pairs.countP (fun p => isOkOutcome p.2.transport),
          failed := st.failed + pairs.countP (fun p => !isOkOutcome p.2.transport),
          errors := st.errors ++ pairs.filterMap expectedEntry,
          records := st.records ++ pairs.map (expectedRecord tmpl sender),
          delays := st.delays ++ pairs.map (fun p => stepDelay cfg p.2.rand),
          calls := st.calls + pairs.length,
          aborted := st.aborted } := by
  induction pairs with
  | nil => intro st _; simp [runLoop]
  | cons hd tl ih =>
    intro st h
    obtain ⟨c, b⟩ := hd
    have hb : b.rec1 = none := h (c, b) (List.mem_cons_self _ _)
    have htl : ∀ p ∈ tl, p.2.rec1 = none := fun p hp => h p (List.mem_cons_of_mem _ hp)
    simp only [runLoop, runStep_reliable tmpl sender c b hb]
    rw [ih _ htl]
    cases hok : isOkOutcome b.transport <;>
      cases he : expectedEntry (c, b) <;>
        simp [LoopState.mk.injEq, List.countP_cons, List.filterMap_cons, hok, he,
          Option.toList, List.append_assoc] <;>
        omega

/-- Pointwise length of a `filterMap` as a count of productive elements. -/
theorem length_filterMap_eq_countP {α β : Type} (f : α → Option β) (l : List α) :
    (l.filterMap f).length = l.countP (fun a => (f a).isSome) := by
  induction l with
  | nil => simp
  | cons hd tl ih =>
    cases h : f hd <;> simp [List.filterMap_cons, List.countP_cons, h, ih]

/-- An iteration pushes an aggregate error entry exactly when its
transport call does not succeed. -/
theorem expectedEntry_isSome (p : Contact × StepBehavior) :
    (expectedEntry p).isSome = !isOkOutcome p.2.transport := by
  rcases p with ⟨c, b⟩
  cases h : b.transport <;> simp [expectedEntry, isOkOutcome, h]

/-- A started reliable-recorder run: `handleSendEmails` with all
preconditions satisfied performs every iteration and surfaces the
aggregate result. -/
theorem handleSendEmails_reliable (tmpl : EmailTemplate) (sender : SenderProfile)
    (s : AppSettingsModel) (aw : AWSSettingsModel) (chill : Bool)
    (pairs : List (Contact × StepBehavior))
    (haws : s.aws = some aw) (hne : pairs ≠ []) (hrec : reliableRecorder pairs) :
    handleSendEmails (some tmpl) pairs (some s) (some sender) chill =
      { records := pairs.map (expectedRecord tmpl sender),
        delays := pairs.map (fun p =>
          stepDelay { chillMode := chill, rateLimitPerSecond := s.rateLimitPerSecond } p.2.rand),
        transportCalls := pairs.length,
        result := some { sent := pairs.countP (fun p => isOkOutcome p.2.transport),
                         failed := pairs.countP (fun p => !isOkOutcome p.2.transport),
                         total := pairs.length,
                         errors := pairs.filterMap expectedEntry } } := by
  obtain ⟨hd, tl, rfl⟩ := List.exists_cons_of_ne_nil hne
  simp only [handleSendEmails, haws]
  rw [runLoop_reliable _ _ _ _ initState hrec]
  simp [initState]

/-- Delays of a reliable-recorder run, whether or not it starts: one entry
per recipient iteration, each the pacing-policy value. -/
theorem handleSendEmails_delays (tmpl : EmailTemplate) (sender : SenderProfile)
    (s : AppSettingsModel) (aw : AWSSettingsModel) (chill : Bool)
    (pairs : List (Contact × StepBehavior))
    (haws : s.aws = some aw) (hrec : reliableRecorder pairs) :
    (handleSendEmails (some tmpl) pairs (some s) (some sender) chill).delays =
      pairs.map (fun p =>
        stepDelay { chillMode := chill, rateLimitPerSecond := s.rateLimitPerSecond } p.2.rand) := by
  cases pairs with
  | nil => simp [handleSendEmails, haws, noRun]
  | cons hd tl =>
    rw [handleSendEmails_reliable tmpl sender s aw chill _ haws (by simp) hrec]

/-- Claim C1: for every campaign run with a template, a sender and a
non-empty recipient list, and every transport behavior (including thrown
exceptions at arbitrary positions), each per-recipient failure is
contained in its own iteration: the run performs one transport call, one
history record and one pacing step per recipient for the whole list, and
the aggregate result reaches the caller. -/
theorem exceptionContainedPerRecipient (tmpl : EmailTemplate) (sender : SenderProfile)
    (s : AppSettingsModel) (aw : AWSSettingsModel) (chill : Bool)
    (pairs : List (Contact × StepBehavior))
    (haws : s.aws = some aw) (hne : pairs ≠ []) (hrec : reliableRecorder pairs) :
    (handleSendEmails (some tmpl) pairs (some s) (some sender) chill).transportCalls
        = pairs.length ∧
    (handleSendEmails (some tmpl) pairs (some s) (some sender) chill).records.length
        = pairs.length ∧
    (handleSendEmails (some tmpl) pairs (some s) (some sender) chill).delays.length
        = pairs.length ∧
    ((handleSendEmails (some tmpl) pairs (some s) (some sender) chill).result).isSome
        = true := by
  rw [handleSendEmails_reliable tmpl sender s aw chill pairs haws hne hrec]
  simp

/-- Claim C2: with exactly K transport failures (at arbitrary positions,
including thrown exceptions), the aggregate satisfies
sent + failed = total = N, failed = K, and the error list has exactly the
K entries "email: reason" in recipient-list order. -/
theorem aggregateCountsMatchFailures (tmpl : EmailTemplate) (sender : SenderProfile)
    (s : AppSettingsModel) (aw : AWSSettingsModel) (chill : Bool)
    (pairs : List (Contact × StepBehavior)) (K : Nat)
    (haws : s.aws = some aw) (hne : pairs ≠ []) (hrec : reliableRecorder pairs)
    (hK : pairs.countP (fun p => !isOkOutcome p.2.transport) = K) :
    ∃ r : RunResult,
      (handleSendEmails (some tmpl) pairs (some s) (some sender) chill).result = some r ∧
      r.sent + r.failed = r.total ∧ r.total = pairs.length ∧ r.failed = K ∧
      r.errors.length = K ∧ r.errors = pairs.filterMap expectedEntry := by
  rw [handleSendEmails_reliable tmpl sender s aw chill pairs haws hne hrec]
  refine ⟨_, rfl, ?_, rfl, hK, ?_, rfl⟩
  · simpa using (List.length_eq_countP_add_countP (fun p => isOkOutcome p.2.transport) pairs).symm
  · rw [length_filterMap_eq_countP, ← hK]
    exact List.countP_congr fun p _ => by rw [expectedEntry_isSome]

/-- Claim C3: a reliable-recorder run writes exactly one history record
per recipient, in exactly recipient-list order, whatever each transport
call does. -/
theorem oneRecordPerRecipientInOrder (tmpl : EmailTemplate) (sender : SenderProfile)
    (s : AppSettingsModel) (aw : AWSSettingsModel) (chill : Bool)
    (pairs : List (Contact × StepBehavior))
    (haws : s.aws = some aw) (hne : pairs ≠ []) (hrec : reliableRecorder pairs) :
    (handleSendEmails (some tmpl) pairs (some s) (some sender) chill).records.map
        SentEmailData.contactId
      = pairs.map (fun p => p.1.id) := by
  rw [handleSendEmails_reliable tmpl sender s aw chill pairs haws hne hrec]
  simp only [List.map_map]
  refine List.map_congr_left fun p _ => ?_
  rcases p with ⟨c, b⟩
  cases h : b.transport <;> simp [expectedRecord, h]

/-- Claim C4: with any precondition missing (no template, empty recipient
list, no settings, settings without an aws block, or no sender) the run
never starts: no transport call, no history record, no aggregate. -/
theorem preconditionsRefuseRun (tmplO : Option EmailTemplate)
    (pairs : List (Contact × StepBehavior)) (settings : Option AppSettingsModel)
    (senderO : Option SenderProfile) (chill : Bool)
    (h : tmplO = none ∨ pairs = [] ∨ settings = none ∨
         (∃ s, settings = some s ∧ s.aws = none) ∨ senderO = none) :
    handleSendEmails tmplO pairs settings senderO chill = noRun := by
  rcases h with rfl | rfl | rfl | ⟨s, rfl, hs⟩ | rfl
  · rfl
  · cases tmplO <;> cases settings <;> cases senderO <;>
      first
        | rfl
        | (rename_i s _; cases h2 : s.aws <;> simp [handleSendEmails, h2])
  · cases tmplO <;> rfl
  · cases tmplO <;> cases senderO <;> simp [handleSendEmails, hs]
  · cases tmplO <;> cases settings <;> rfl

/-- Claim C5 counterexample: a concrete chill-mode run with a single
recipient still performs a pacing sleep after that final recipient, so
the delay is not only between consecutive recipients. -/
theorem pacingAfterFinalRecipientCex :
    (handleSendEmails (some sampleTemplate)
        [(sampleContact, { transport := TransportOutcome.ok (some "m1") })]
        (some sampleSettings) (some sampleSender) true).delays = [some 2000] ∧
    ((handleSendEmails (some sampleTemplate)
        [(sampleContact, { transport := TransportOutcome.ok (some "m1") })]
        (some sampleSettings) (some sampleSender) true).delays.getLastD none) ≠ none := by
  constructor <;>
    simp [handleSendEmails, runLoop, runStep, stepDelay, initState, sampleSettings]

/-- Claim C5 amended: `handleSendEmails` applies the pacing-policy delay
at the bottom of every recipient iteration, including the final one;
the delay list has one policy entry per recipient. -/
theorem pacingAppliedAfterEveryRecipient (tmpl : EmailTemplate) (sender : SenderProfile)
    (s : AppSettingsModel) (aw : AWSSettingsModel) (chill : Bool)
    (pairs : List (Contact × StepBehavior))
    (haws : s.aws = some aw) (hrec : reliableRecorder pairs) :
    (handleSendEmails (some tmpl) pairs (some s) (some sender) chill).delays =
      pairs.map (fun p =>
        stepDelay { chillMode := chill, rateLimitPerSecond := s.rateLimitPerSecond }
          p.2.rand) :=
  handleSendEmails_delays tmpl sender s aw chill pairs haws hrec

/-- Claim C6 counterexample: when the transport call throws, the history
record carries the raw template subject with its placeholder, not the
rendered subject the renderer produces for that recipient. -/
theorem recordSubjectOnThrowCex :
    (handleSendEmails (some sampleTemplate)
        [(sampleContact, { transport := TransportOutcome.exn (some "boom") })]
        (some sampleSettings) (some sampleSender) false).records.map SentEmailData.subject
      = ["Hi \x7b\x7bname\x7d\x7d"] ∧
    (processTemplate sampleTemplate sampleContact (some sampleSender)).subject = "Hi Ada" ∧
    ("Hi \x7b\x7bname\x7d\x7d" : String) ≠ "Hi Ada" := by
  refine ⟨by decide, by decide, by decide⟩

/-- Claim C6 amended: history records carry the rendered subject on
transport success and on transport-reported failure; when the transport
call throws, the record carries the raw template subject instead. -/
theorem recordSubjectsPerOutcome (tmpl : EmailTemplate) (sender : SenderProfile)
    (s : AppSettingsModel) (aw : AWSSettingsModel) (chill : Bool)
    (pairs : List (Contact × StepBehavior))
    (haws : s.aws = some aw) (hne : pairs ≠ []) (hrec : reliableRecorder pairs) :
    (handleSendEmails (some tmpl) pairs (some s) (some sender) chill).records.map
        SentEmailData.subject
      = pairs.map (fun p =>
          match p.2.transport with
          | TransportOutcome.exn _ => tmpl.subject
          | _ => (processTemplate tmpl p.1 (some sender)).subject) := by
  rw [handleSendEmails_reliable tmpl sender s aw chill pairs haws hne hrec]
  simp only [List.map_map]
  refine List.map_congr_left fun p _ => ?_
  rcases p with ⟨c, b⟩
  cases h : b.transport <;> simp [expectedRecord, h]

/-- Claim C9: every pacing entry of a run is the policy value: in chill
mode a value in [2000, 3000) covering the whole interval as the random
draw ranges over [0, 1); otherwise 1000 / rate for a truthy configured
rate, and no delay when the rate is unset or zero. -/
theorem pacingPolicyValues (tmpl : EmailTemplate) (sender : SenderProfile)
    (s : AppSettingsModel) (aw : AWSSettingsModel) (chill : Bool)
    (pairs : List (Contact × StepBehavior))
    (haws : s.aws = some aw) (hrec : reliableRecorder pairs)
    (hrand : ∀ p ∈ pairs, 0 ≤ p.2.rand ∧ p.2.rand < 1) :
    (∀ d ∈ (handleSendEmails (some tmpl) pairs (some s) (some sender) chill).delays,
      (chill = true → ∃ q : ℚ, d = some q ∧ 2000 ≤ q ∧ q < 3000) ∧
      (chill = false → (s.rateLimitPerSecond = none ∨ s.rateLimitPerSecond = some 0) →
        d = none) ∧
      (chill = false → ∀ r : ℚ, s.rateLimitPerSecond = some r → r ≠ 0 →
        d = some (1000 / r))) ∧
    (∀ q : ℚ, 2000 ≤ q → q < 3000 →
      ∃ rand : ℚ, 0 ≤ rand ∧ rand < 1 ∧
        stepDelay { chillMode := true, rateLimitPerSecond := s.rateLimitPerSecond } rand
          = some q) := by
  constructor
  · intro d hd
    rw [handleSendEmails_delays tmpl sender s aw chill pairs haws hrec] at hd
    obtain ⟨p, hp, rfl⟩ := List.mem_map.mp hd
    obtain ⟨h0, h1⟩ := hrand p hp
    refine ⟨?_, ?_, ?_⟩
    · rintro rfl
      exact ⟨2000 + p.2.rand * 1000, by simp [stepDelay], by linarith, by linarith⟩
    · rintro rfl (hr | hr) <;> simp [stepDelay, hr]
    · rintro rfl r hr hr0
      simp [stepDelay, hr, hr0]
  · intro q hq1 hq2
    refine ⟨(q - 2000) / 1000, ?_, ?_, ?_⟩
    · apply div_nonneg (by linarith) (by norm_num)
    · rw [div_lt_one (by norm_num)]
      linarith
    · simp only [stepDelay, if_pos rfl]
      field_simp

/-- Claim C10: a concrete run in which the transport call succeeds but
the history-record call rejects: the recipient is counted in both `sent`
and `failed`, an error entry is appended for them, so sent + failed
exceeds total and the error list is longer than the number of transport
failures, which is zero. -/
theorem recorderFailureDoubleCounts :
    (handleSendEmails (some sampleTemplate)
        [(sampleContact, { transport := TransportOutcome.ok (some "m1"),
                           rec1 := some (some "disk full") })]
        (some sampleSettings) (some sampleSender) false).result
      = some { sent := 1, failed := 1, total := 1,
               errors := ["ada@x.example: disk full"] } ∧
    (handleSendEmails (some sampleTemplate)
        [(sampleContact, { transport := TransportOutcome.ok (some "m1"),
                           rec1 := some (some "disk full") })]
        (some sampleSettings) (some sampleSender) false).records
      = [{ contactId := "c-1", templateId := "tpl-1", senderProfileId := "snd-1",
           subject := "Hi \x7b\x7bname\x7d\x7d", status := SendStatus.failed,
           messageId := none, error := some "disk full" }] ∧
    1 + 1 > 1 ∧
    ([(sampleContact, ({ transport := TransportOutcome.ok (some "m1"),
                         rec1 := some (some "disk full") } : StepBehavior))].countP
        (fun p => !isOkOutcome p.2.transport)) = 0 := by
  refine ⟨by decide, by decide, by decide, by decide⟩

/-- The closing brace is not a word character. -/
theorem isWordChar_rbrace : isWordChar (Char.ofNat 125) = false := by decide

/-- `takeWhile` stops exactly at the first non-satisfying element. -/
theorem takeWhile_append_stop (p : Char → Bool) (w : List Char) (y : Char) (l : List Char)
    (hw : ∀ c ∈ w, p c = true) (hy : p y = false) :
    (w ++ y :: l).takeWhile p = w := by
  induction w with
  | nil => simp [List.takeWhile, hy]
  | cons c cs ih =>
    have hc : p c = true := hw c (List.mem_cons_self _ _)
    simp only [List.cons_append, List.takeWhile_cons, hc]
    simp [ih fun c hc2 => hw c (List.mem_cons_of_mem _ hc2)]

/-- `dropWhile` resumes exactly at the first non-satisfying element. -/
theorem dropWhile_append_stop (p : Char → Bool) (w : List Char) (y : Char) (l : List Char)
    (hw : ∀ c ∈ w, p c = true) (hy : p y = false) :
    (w ++ y :: l).dropWhile p = y :: l := by
  induction w with
  | nil => simp [List.dropWhile, hy]
  | cons c cs ih =>
    have hc : p c = true := hw c (List.mem_cons_self _ _)
    simp only [List.cons_append, List.dropWhile_cons, hc]
    simp [ih fun c hc2 => hw c (List.mem_cons_of_mem _ hc2)]

/-- Soundness of one regex attempt: a returned match reconstructs the
input as braces, name, braces, remainder, with a non-empty all-word
name. -/
theorem matchToken_sound (cs w tail : List Char) (h : matchToken cs = some (w, tail)) :
    cs = '{' :: '{' :: (w ++ '}' :: '}' :: tail) ∧ w ≠ [] ∧
      ∀ c ∈ w, isWordChar c = true := by
  unfold matchToken at h
  split at h
  · next rest =>
    by_cases hemp : (rest.takeWhile isWordChar).isEmpty
    · simp [hemp] at h
    · simp only [hemp, Bool.false_eq_true, if_false] at h
      split at h
      · next tail2 heq =>
        injection h with h2
        injection h2 with hw htail
        subst hw
        subst htail
        refine ⟨?_, ?_, ?_⟩
        · rw [← heq, List.takeWhile_append_dropWhile]
        · intro hnil
          rw [hnil] at hemp
          simp at hemp
        · intro c hc
          exact List.mem_takeWhile_imp hc
      · exact absurd h (by simp)
  · exact absurd h (by simp)

/-- Completeness of one regex attempt: at a position carrying a full
brace-name-brace block, the attempt returns exactly that block. -/
theorem matchToken_complete (w post : List Char) (hw : w ≠ [])
    (hword : ∀ c ∈ w, isWordChar c = true) :
    matchToken ('{' :: '{' :: (w ++ '}' :: '}' :: post)) = some (w, post) := by
  have hred : ∀ rest : List Char, matchToken ('{' :: '{' :: rest) =
      (if (rest.takeWhile isWordChar).isEmpty then none
       else
         match rest.dropWhile isWordChar with
         | '}' :: '}' :: tail => some (rest.takeWhile isWordChar, tail)
         | _ => none) := fun _ => rfl
  rw [hred, takeWhile_append_stop isWordChar w '}' ('}' :: post) hword (by decide),
      dropWhile_append_stop isWordChar w '}' ('}' :: post) hword (by decide)]
  simp [hw]

/-- A token block inside a list is still a token block after prepending. -/
theorem tokenIn_append_left (x w t : List Char) (h : TokenIn w t) : TokenIn w (x ++ t) := by
  obtain ⟨hw, hword, pre, post, hshape⟩ := h
  exact ⟨hw, hword, x ++ pre, post, by rw [hshape, List.append_assoc]⟩

/-- Soundness of the scan: every collected name is a token block of the
scanned content. -/
theorem scanVarsAux_sound : ∀ (fuel : Nat) (cs : List Char) (v : String),
    v ∈ scanVarsAux fuel cs → TokenIn v.data cs := by
  intro fuel
  induction fuel with
  | zero => intro cs v hv; simp [scanVarsAux] at hv
  | succ fuel ih =>
    intro cs v hv
    cases cs with
    | nil => simp [scanVarsAux] at hv
    | cons c cs2 =>
      rw [scanVarsAux] at hv
      cases htm : matchToken (c :: cs2) with
      | none =>
        rw [htm] at hv
        have := ih cs2 v hv
        exact tokenIn_append_left [c] v.data cs2 this
      | some wtail =>
        obtain ⟨w, tail⟩ := wtail
        rw [htm] at hv
        obtain ⟨hshape, hwne, hword⟩ := matchToken_sound (c :: cs2) w tail htm
        rcases List.mem_cons.mp hv with rfl | hv2
        · exact ⟨by simpa using hwne, by simpa using hword, [], tail, by simpa using hshape⟩
        · have := ih tail v hv2
          have h2 := tokenIn_append_left ('{' :: '{' :: w ++ ['}', '}']) v.data tail this
          rw [hshape]
          have heq : ('{' :: '{' :: w ++ ['}', '}']) ++ tail
              = '{' :: '{' :: (w ++ '}' :: '}' :: tail) := by simp
          rw [heq] at h2
          exact h2

/-- Two token blocks in the same list either start at the same position,
in which case they are equal (both names are maximal word runs), or the
later one lies entirely after the earlier one: the earlier block's
characters are braces and word characters, so no second block can begin
inside it. -/
theorem token_block_positions (w w2 post tail pre : List Char)
    (he : pre ++ '{' :: '{' :: (w ++ '}' :: '}' :: post)
          = '{' :: '{' :: (w2 ++ '}' :: '}' :: tail))
    (hw2ne : w2 ≠ [])
    (hword : ∀ c ∈ w, isWordChar c = true) (hword2 : ∀ c ∈ w2, isWordChar c = true) :
    (pre = [] ∧ w = w2 ∧ post = tail) ∨
      ∃ pre2, tail = pre2 ++ '{' :: '{' :: (w ++ '}' :: '}' :: post) := by
  cases pre with
  | nil =>
    left
    simp only [List.nil_append, List.cons.injEq, true_and] at he
    have hw : w = w2 := by
      have h1 : (w ++ '}' :: '}' :: post).takeWhile isWordChar = w :=
        takeWhile_append_stop isWordChar w '}' ('}' :: post) hword (by decide)
      have h2 : (w2 ++ '}' :: '}' :: tail).takeWhile isWordChar = w2 :=
        takeWhile_append_stop isWordChar w2 '}' ('}' :: tail) hword2 (by decide)
      rw [← h1, ← h2, he]
    subst hw
    have hpost : '}' :: '}' :: post = '}' :: '}' :: tail := List.append_cancel_left he
    simp only [List.cons.injEq, true_and] at hpost
    exact ⟨rfl, rfl, hpost⟩
  | cons p0 pre1 =>
    simp only [List.cons_append, List.cons.injEq] at he
    obtain ⟨rfl, he1⟩ := he
    cases pre1 with
    | nil =>
      exfalso
      simp only [List.nil_append, List.cons.injEq] at he1
      obtain ⟨-, he2⟩ := he1
      obtain ⟨a, w3, rfl⟩ := List.exists_cons_of_ne_nil hw2ne
      simp only [List.cons_append, List.cons.injEq] at he2
      obtain ⟨ha, _⟩ := he2
      have : isWordChar a = true := hword2 a (List.mem_cons_self _ _)
      rw [← ha] at this
      exact absurd this (by decide)
    | cons p1 pre2 =>
      simp only [List.cons_append, List.cons.injEq] at he1
      obtain ⟨rfl, he2⟩ := he1
      have he3 : pre2 ++ '{' :: '{' :: (w ++ '}' :: '}' :: post)
          = (w2 ++ ['}', '}']) ++ tail := by
        rw [he2]; simp
      rcases List.append_eq_append_iff.mp he3 with ⟨a, ha1, ha2⟩ | ⟨a, ha1, ha2⟩
      · -- w2 ++ braces = pre2 ++ a and a ++ tail continues with the block
        cases a with
        | nil =>
          right
          exact ⟨[], by simpa using ha2.symm⟩
        | cons x a2 =>
          exfalso
          have hx : x = '{' := by
            have := ha2.symm
            simp only [List.cons_append, List.cons.injEq] at this
            exact this.1
          have hmem : x ∈ w2 ++ ['}', '}'] := by
            rw [ha1]
            exact List.mem_append_right _ (List.mem_cons_self _ _)
          subst hx
          rcases List.mem_append.mp hmem with hin | hin
          · have := hword2 _ hin
            exact absurd this (by decide)
          · simp at hin
      · -- the block starts after the earlier one: inside tail
        right
        exact ⟨a, ha2⟩

/-- Completeness of the scan: every token block of the content is
collected, provided the fuel covers the content length. -/
theorem scanVarsAux_complete : ∀ (fuel : Nat) (cs pre post w : List Char),
    cs.length ≤ fuel → cs = pre ++ '{' :: '{' :: (w ++ '}' :: '}' :: post) →
    w ≠ [] → (∀ c ∈ w, isWordChar c = true) →
    String.mk w ∈ scanVarsAux fuel cs := by
  intro fuel
  induction fuel with
  | zero =>
    intro cs pre post w hlen hcs hw hword
    subst hcs
    simp at hlen
  | succ fuel ih =>
    intro cs pre post w hlen hcs hw hword
    cases cs with
    | nil => exact absurd hcs.symm (by simp)
    | cons c cs2 =>
      rw [scanVarsAux]
      cases htm : matchToken (c :: cs2) with
      | none =>
        cases pre with
        | nil =>
          exfalso
          simp only [List.nil_append, List.cons.injEq] at hcs
          obtain ⟨rfl, rfl⟩ := hcs
          rw [matchToken_complete w post hw hword] at htm
          exact absurd htm (by simp)
        | cons p0 pre1 =>
          simp only [List.cons_append, List.cons.injEq] at hcs
          obtain ⟨rfl, rfl⟩ := hcs
          have hlen2 : (pre1 ++ '{' :: '{' :: (w ++ '}' :: '}' :: post)).length ≤ fuel := by
            simp only [List.length_cons] at hlen
            omega
          exact ih _ pre1 post w hlen2 rfl hw hword
      | some wtail =>
        obtain ⟨w2, tail⟩ := wtail
        obtain ⟨hshape, hw2ne, hword2⟩ := matchToken_sound (c :: cs2) w2 tail htm
        have hcomb : pre ++ '{' :: '{' :: (w ++ '}' :: '}' :: post)
            = '{' :: '{' :: (w2 ++ '}' :: '}' :: tail) := by
          rw [← hcs, hshape]
        rcases token_block_positions w w2 post tail pre hcomb hw2ne hword hword2 with
          ⟨-, rfl, rfl⟩ | ⟨pre2, htail⟩
        · exact List.mem_cons_self _ _
        · have hlen2 : tail.length ≤ fuel := by
            have hl : (c :: cs2).length = w2.length + 4 + tail.length := by
              rw [hshape]
              simp [List.length_append]
              omega
            rw [hl] at hlen
            omega
          exact List.mem_cons_of_mem _ (ih tail pre2 post w hlen2 htail hw hword)

/-- Membership in the raw scan output is exactly token occurrence. -/
theorem mem_scanVars (cs : List Char) (v : String) :
    v ∈ scanVars cs ↔ TokenIn v.data cs := by
  constructor
  · exact scanVarsAux_sound cs.length cs v
  · rintro ⟨hne, hword, pre, post, hshape⟩
    have hmk : String.mk v.data = v := by
      cases v
      rfl
    rw [← hmk]
    exact scanVarsAux_complete cs.length cs pre post v.data le_rfl hshape hne hword

/-- Membership after one `includes`-guarded push. -/
theorem mem_addDistinct (acc : List String) (a v : String) :
    v ∈ addDistinct acc a ↔ v ∈ acc ∨ v = a := by
  unfold addDistinct
  by_cases h : a ∈ acc
  · rw [if_pos (by simpa using h)]
    constructor
    · exact Or.inl
    · rintro (hv | rfl)
      · exact hv
      · exact h
  · rw [if_neg (by simpa using h)]
    simp

/-- Membership through the `includes`-guarded push fold. -/
theorem mem_foldl_addDistinct (l : List String) :
    ∀ (acc : List String) (v : String),
      v ∈ l.foldl addDistinct acc ↔ v ∈ acc ∨ v ∈ l := by
  induction l with
  | nil => intro acc v; simp
  | cons hd tl ih =>
    intro acc v
    rw [List.foldl_cons, ih, mem_addDistinct, List.mem_cons]
    tauto

/-- One `includes`-guarded push preserves freedom from duplicates. -/
theorem nodup_addDistinct (acc : List String) (a : String) (h : acc.Nodup) :
    (addDistinct acc a).Nodup := by
  unfold addDistinct
  by_cases hm : a ∈ acc
  · rw [if_pos (by simpa using hm)]
    exact h
  · rw [if_neg (by simpa using hm)]
    simp [List.nodup_append, h, hm]

/-- The `includes`-guarded push fold never introduces duplicates. -/
theorem nodup_foldl_addDistinct (l : List String) :
    ∀ acc : List String, acc.Nodup → (l.foldl addDistinct acc).Nodup := by
  induction l with
  | nil => intro acc h; simpa using h
  | cons hd tl ih =>
    intro acc h
    rw [List.foldl_cons]
    exact ih _ (nodup_addDistinct acc hd h)

/-- `extractVariables` membership is exactly token occurrence. -/
theorem mem_extractVariables (content : String) (v : String) :
    v ∈ extractVariables content ↔ TokenIn v.data content.data := by
  unfold extractVariables
  rw [mem_foldl_addDistinct, ← mem_scanVars content.data v]
  simp

/-- `extractVariables` output is duplicate-free. -/
theorem nodup_extractVariables (content : String) : (extractVariables content).Nodup :=
  nodup_foldl_addDistinct _ [] List.nodup_nil

/-- A token block of a content list split by a space separator lies
entirely on one side: no block character is a space. -/
theorem tokenIn_append_space (w A B : List Char) :
    TokenIn w (A ++ ' ' :: B) ↔ TokenIn w A ∨ TokenIn w B := by
  constructor
  · rintro ⟨hne, hword, pre, post, hshape⟩
    have hnospace : ' ' ∉ '{' :: '{' :: (w ++ ['}', '}']) := by
      intro hc
      rcases List.mem_cons.mp hc with h | hc
      · exact absurd h (by decide)
      rcases List.mem_cons.mp hc with h | hc
      · exact absurd h (by decide)
      rcases List.mem_append.mp hc with hc | hc
      · exact absurd (hword _ hc) (by decide)
      · rcases List.mem_cons.mp hc with h | hc
        · exact absurd h (by decide)
        · simp at hc
    have hshape2 : A ++ ' ' :: B
        = pre ++ (('{' :: '{' :: (w ++ ['}', '}'])) ++ post) := by
      rw [hshape]
      simp
    rcases List.append_eq_append_iff.mp hshape2 with ⟨a, ha1, ha2⟩ | ⟨a, ha1, ha2⟩
    · -- the block begins at or after the separator
      cases a with
      | nil =>
        exfalso
        simp only [List.nil_append, List.cons_append, List.cons.injEq] at ha2
        exact absurd ha2.1 (by decide)
      | cons x a2 =>
        right
        simp only [List.cons_append, List.cons.injEq] at ha2
        obtain ⟨-, hB⟩ := ha2
        exact ⟨hne, hword, a2, post, by rw [hB]; simp⟩
    · -- the block lies inside A
      left
      rcases List.append_eq_append_iff.mp ha2 with ⟨k, hk1, hk2⟩ | ⟨k, hk1, hk2⟩
      · -- a = blk ++ k
        refine ⟨hne, hword, pre, k, ?_⟩
        rw [ha1, hk1]
        simp
      · -- blk = a ++ k and the separator would land inside the block
        cases k with
        | nil =>
          refine ⟨hne, hword, pre, [], ?_⟩
          simp only [List.append_nil] at hk1
          rw [ha1, ← hk1]
        | cons x k2 =>
          exfalso
          simp only [List.cons_append, List.cons.injEq] at hk2
          obtain ⟨hx, -⟩ := hk2
          subst hx
          apply hnospace
          rw [hk1]
          exact List.mem_append_right _ (List.mem_cons_self _ _)
  · rintro (⟨hne, hword, pre, post, hshape⟩ | ⟨hne, hword, pre, post, hshape⟩)
    · exact ⟨hne, hword, pre, post ++ ' ' :: B, by rw [hshape]; simp⟩
    · exact ⟨hne, hword, A ++ ' ' :: pre, post, by rw [hshape]; simp⟩

/-- `extractVariables` over two bodies joined by a space sees exactly the
tokens of either body. -/
theorem extractVariables_spaceJoin (A B v : String) :
    v ∈ extractVariables (A ++ " " ++ B) ↔ occursToken v A ∨ occursToken v B := by
  rw [mem_extractVariables]
  have hdata : (A ++ " " ++ B).data = A.data ++ ' ' :: B.data := by
    simp [String.data_append]
  rw [hdata, tokenIn_append_space]
  exact Iff.rfl

/-- Claim C7 counterexample: a template whose only placeholder sits in
the subject is stored with an empty placeholder set, so the stored set is
not the token set of subject plus bodies. -/
theorem templateVariablesIgnoreSubjectCex :
    (createTemplate c7Input "id-1" "t0").varNames = [] ∧
    occursToken "name" (createTemplate c7Input "id-1" "t0").subject ∧
    "name" ∉ (createTemplate c7Input "id-1" "t0").varNames := by
  refine ⟨by decide, ⟨by decide, by decide, ?_⟩, by decide⟩
  exact ⟨"Hi ".data, [], by decide⟩

/-- Claim C7 amended: after a create the stored placeholder set is
duplicate-free and holds exactly the distinct token names of the saved
HTML and text bodies (the subject is never scanned).  After an update
whose supplied body content passes the truthiness guard, it holds exactly
the distinct token names of the two scanned bodies, each read as the
supplied value when non-empty and the previously stored body otherwise;
a scanned body coincides with the saved one exactly when the supplied
field is absent or non-empty, so supplying an empty-string body makes the
stored set track the old body while the empty string is saved.  An update
supplying no truthy body field keeps the previous placeholder set. -/
theorem templateVariablesTrackBodies (d : TemplateFormInput) (id now : String)
    (t : EmailTemplate) (u : TemplateUpdate) (now2 : String) :
    ((createTemplate d id now).varNames.Nodup ∧
      ∀ v, v ∈ (createTemplate d id now).varNames ↔
        occursToken v d.htmlContent ∨ occursToken v d.textContent) ∧
    ((otruthy u.htmlContent || otruthy u.textContent) = true →
      (updateTemplate t u now2).varNames.Nodup ∧
      ∀ v, v ∈ (updateTemplate t u now2).varNames ↔
        occursToken v (jsOrStr u.htmlContent t.htmlContent) ∨
        occursToken v (jsOrStr u.textContent t.textContent)) ∧
    ((otruthy u.htmlContent || otruthy u.textContent) = false →
      (updateTemplate t u now2).varNames = t.varNames) ∧
    ((u.htmlContent = none ∨ ∃ h, u.htmlContent = some h ∧ h ≠ "") →
      jsOrStr u.htmlContent t.htmlContent = (updateTemplate t u now2).htmlContent) ∧
    ((u.textContent = none ∨ ∃ h, u.textContent = some h ∧ h ≠ "") →
      jsOrStr u.textContent t.textContent = (updateTemplate t u now2).textContent) := by
  have hsavedh : (updateTemplate t u now2).htmlContent = u.htmlContent.getD t.htmlContent :=
    rfl
  have hsavedt : (updateTemplate t u now2).textContent = u.textContent.getD t.textContent :=
    rfl
  refine ⟨⟨nodup_extractVariables _, fun v => extractVariables_spaceJoin _ _ v⟩,
    ?_, ?_, ?_, ?_⟩
  · intro htr
    have hvar : updateTemplate t u now2 =
        { id := t.id, name := u.name.getD t.name, subject := u.subject.getD t.subject,
          htmlContent := u.htmlContent.getD t.htmlContent,
          textContent := u.textContent.getD t.textContent,
          varNames := extractVariables
            (jsOrStr u.htmlContent t.htmlContent ++ " " ++ jsOrStr u.textContent t.textContent),
          createdAt := t.createdAt, updatedAt := now2 } := by
      rw [updateTemplate]
      rw [if_pos htr]
    rw [hvar]
    exact ⟨nodup_extractVariables _, fun v => extractVariables_spaceJoin _ _ v⟩
  · intro hf
    rw [updateTemplate, if_neg (by simp [hf])]
  · intro hh
    rw [hsavedh]
    rcases hh with h0 | ⟨h, h0, hne⟩ <;> rw [h0]
    · rfl
    · simp [jsOrStr, hne]
  · intro ht
    rw [hsavedt]
    rcases ht with h0 | ⟨h, h0, hne⟩ <;> rw [h0]
    · rfl
    · simp [jsOrStr, hne]

/-- Splitting a segment free of separators yields that one segment. -/
theorem splitOnPred_all_neg (p : Char → Bool) (t : List Char)
    (h : ∀ c ∈ t, p c = false) : splitOnPred p t = [t] := by
  induction t with
  | nil => rfl
  | cons c cs ih =>
    have hc : p c = false := h c (List.mem_cons_self _ _)
    rw [splitOnPred, if_neg (by simp [hc]),
      ih fun c2 hc2 => h c2 (List.mem_cons_of_mem _ hc2)]

/-- Splitting past a separator-free segment followed by one separator
peels off exactly that segment. -/
theorem splitOnPred_append_sep (p : Char → Bool) (t : List Char) (x : Char) (l : List Char)
    (ht : ∀ c ∈ t, p c = false) (hx : p x = true) :
    splitOnPred p (t ++ x :: l) = t :: splitOnPred p l := by
  induction t with
  | nil =>
    rw [List.nil_append, splitOnPred, if_pos hx]
  | cons c cs ih =>
    have hc : p c = false := ht c (List.mem_cons_self _ _)
    rw [List.cons_append, splitOnPred, if_neg (by simp [hc]),
      ih fun c2 hc2 => ht c2 (List.mem_cons_of_mem _ hc2)]

/-- Splitting on spaces undoes joining by single spaces when no segment
carries a space. -/
theorem splitOnPred_joinSpace (toks : List (List Char)) (h1 : toks ≠ [])
    (h2 : ∀ t ∈ toks, ∀ c ∈ t, (c == ' ') = false) :
    splitOnPred (fun c => c == ' ') (joinSpace toks) = toks := by
  induction toks with
  | nil => exact absurd rfl h1
  | cons t ts ih =>
    cases ts with
    | nil =>
      exact splitOnPred_all_neg _ t (h2 t (List.mem_cons_self _ _))
    | cons u ts2 =>
      have hjoin : joinSpace (t :: u :: ts2) = t ++ ' ' :: joinSpace (u :: ts2) := rfl
      rw [hjoin, splitOnPred_append_sep _ t ' ' _ (h2 t (List.mem_cons_self _ _)) (by decide),
        ih (List.cons_ne_nil u ts2) fun t2 ht2 => h2 t2 (List.mem_cons_of_mem _ ht2)]

/-- Rebuilding a string from its character list is the identity. -/
theorem string_mk_data (s : String) : String.mk s.data = s := by
  cases s
  rfl

/-- The `|| ''` fallback on a string is the identity. -/
theorem ifEmptyElseSelf (s : String) : (if s == "" then ("" : String) else s) = s := by
  by_cases h : s == ""
  · rw [if_pos h]
    exact (eq_of_beq h).symm
  · rw [if_neg h]

/-- Claim C8 counterexample: the display name with a double space.  The
code splits on single space characters and keeps empty segments, so the
derived last name keeps a leading space, while splitting on whitespace as
the specification describes yields the bare remaining token. -/
theorem nameSplitOnWhitespaceCex :
    jsLastName "Ada  Lovelace" = " Lovelace" ∧
    specLastName "Ada  Lovelace" = "Lovelace" ∧
    jsLastName "Ada  Lovelace" ≠ specLastName "Ada  Lovelace" := by
  refine ⟨by decide, by decide, by decide⟩

/-- Claim C8 amended: for a display name made of non-empty space-free
tokens separated by single spaces, the derived first name is the first
token and the derived last name is the remaining tokens joined by single
spaces; the split is on the space character only, with empty segments
preserved, not on general whitespace. -/
theorem nameSplitSingleSpaces (toks : List String) (h1 : toks ≠ [])
    (h2 : ∀ t ∈ toks, t.data ≠ [] ∧ ∀ c ∈ t.data, c ≠ ' ') :
    jsFirstName (joinTokens toks) = toks.headD "" ∧
    jsLastName (joinTokens toks) = joinTokens (toks.drop 1) := by
  have hsplit : splitOnPred (fun c => c == ' ') ((joinTokens toks).data)
      = toks.map String.data := by
    have : (joinTokens toks).data = joinSpace (toks.map String.data) := rfl
    rw [this]
    apply splitOnPred_joinSpace
    · simpa using h1
    · intro t ht c hc
      obtain ⟨u, hu, rfl⟩ := List.mem_map.mp ht
      simpa using (h2 u hu).2 c hc
  constructor
  · rw [jsFirstName, hsplit]
    obtain ⟨t, rest, rfl⟩ := List.exists_cons_of_ne_nil h1
    have hne : t.data.isEmpty = false := by
      simpa [List.isEmpty_iff] using (h2 t (List.mem_cons_self _ _)).1
    simp [hne, string_mk_data]
  · rw [jsLastName]
    simp only [hsplit]
    rw [← List.map_drop, ifEmptyElseSelf]
    rfl

/-- Claim C1 witness: a concrete two-recipient run whose first transport
call throws still calls the transport, records and paces for both
recipients and returns an aggregate. -/
theorem exceptionContainedPerRecipientWitness :
    sampleSettings.aws = some {} ∧ wPairsA ≠ [] ∧ reliableRecorder wPairsA ∧
    ((handleSendEmails (some sampleTemplate) wPairsA (some sampleSettings)
        (some sampleSender) false).transportCalls = wPairsA.length ∧
     (handleSendEmails (some sampleTemplate) wPairsA (some sampleSettings)
        (some sampleSender) false).records.length = wPairsA.length ∧
     (handleSendEmails (some sampleTemplate) wPairsA (some sampleSettings)
        (some sampleSender) false).delays.length = wPairsA.length ∧
     ((handleSendEmails (some sampleTemplate) wPairsA (some sampleSettings)
        (some sampleSender) false).result).isSome = true) :=
  ⟨rfl, by decide, by decide,
    exceptionContainedPerRecipient sampleTemplate sampleSender sampleSettings {} false
      wPairsA rfl (by decide) (by decide)⟩

/-- Claim C2 witness: the same concrete run has one transport failure and
the aggregate counts and error list reflect exactly it. -/
theorem aggregateCountsMatchFailuresWitness :
    sampleSettings.aws = some {} ∧ wPairsA ≠ [] ∧ reliableRecorder wPairsA ∧
    wPairsA.countP (fun p => !isOkOutcome p.2.transport) = 1 ∧
    (∃ r : RunResult,
      (handleSendEmails (some sampleTemplate) wPairsA (some sampleSettings)
          (some sampleSender) false).result = some r ∧
      r.sent + r.failed = r.total ∧ r.total = wPairsA.length ∧ r.failed = 1 ∧
      r.errors.length = 1 ∧ r.errors = wPairsA.filterMap expectedEntry) :=
  ⟨rfl, by decide, by decide, by decide,
    aggregateCountsMatchFailures sampleTemplate sampleSender sampleSettings {} false
      wPairsA 1 rfl (by decide) (by decide) (by decide)⟩

/-- Claim C3 witness: the same concrete run writes exactly one record per
recipient in list order. -/
theorem oneRecordPerRecipientInOrderWitness :
    sampleSettings.aws = some {} ∧ wPairsA ≠ [] ∧ reliableRecorder wPairsA ∧
    (handleSendEmails (some sampleTemplate) wPairsA (some sampleSettings)
        (some sampleSender) false).records.map SentEmailData.contactId
      = wPairsA.map (fun p => p.1.id) :=
  ⟨rfl, by decide, by decide,
    oneRecordPerRecipientInOrder sampleTemplate sampleSender sampleSettings {} false
      wPairsA rfl (by decide) (by decide)⟩

/-- Claim C4 witness: with no template selected, the run refuses to
start. -/
theorem preconditionsRefuseRunWitness :
    ((none : Option EmailTemplate) = none ∨ wPairsA = [] ∨
      (some sampleSettings : Option AppSettingsModel) = none ∨
      (∃ s, (some sampleSettings : Option AppSettingsModel) = some s ∧ s.aws = none) ∨
      (some sampleSender : Option SenderProfile) = none) ∧
    handleSendEmails none wPairsA (some sampleSettings) (some sampleSender) false = noRun :=
  ⟨Or.inl rfl,
    preconditionsRefuseRun none wPairsA (some sampleSettings) (some sampleSender) false
      (Or.inl rfl)⟩

/-- Claim C5 amended witness: a concrete chill-mode run carries one
pacing entry per recipient, including after the final one. -/
theorem pacingAppliedAfterEveryRecipientWitness :
    sampleSettings.aws = some {} ∧ reliableRecorder wPairsA ∧
    (handleSendEmails (some sampleTemplate) wPairsA (some sampleSettings)
        (some sampleSender) true).delays =
      wPairsA.map (fun p =>
        stepDelay { chillMode := true,
                    rateLimitPerSecond := sampleSettings.rateLimitPerSecond } p.2.rand) :=
  ⟨rfl, by decide,
    pacingAppliedAfterEveryRecipient sampleTemplate sampleSender sampleSettings {} true
      wPairsA rfl (by decide)⟩

/-- Claim C6 amended witness: in the concrete run the thrown first
recipient is recorded with the raw subject and the delivered second
recipient with the rendered subject. -/
theorem recordSubjectsPerOutcomeWitness :
    sampleSettings.aws = some {} ∧ wPairsA ≠ [] ∧ reliableRecorder wPairsA ∧
    (handleSendEmails (some sampleTemplate) wPairsA (some sampleSettings)
        (some sampleSender) false).records.map SentEmailData.subject
      = wPairsA.map (fun p =>
          match p.2.transport with
          | TransportOutcome.exn _ => sampleTemplate.subject
          | _ => (processTemplate sampleTemplate p.1 (some sampleSender)).subject) :=
  ⟨rfl, by decide, by decide,
    recordSubjectsPerOutcome sampleTemplate sampleSender sampleSettings {} false
      wPairsA rfl (by decide) (by decide)⟩

/-- Claim C7 amended witness: a concrete create, and the concrete mixed
update that supplies an empty HTML body next to a non-empty text body:
the guard passes, the scan falls back to the old HTML body (so the stored
set stays the old body's token), and the empty string is saved. -/
theorem templateVariablesTrackBodiesWitness :
    (otruthy c7Update.htmlContent || otruthy c7Update.textContent) = true ∧
    (updateTemplate c7Tmpl c7Update "t1").varNames = ["co"] ∧
    (updateTemplate c7Tmpl c7Update "t1").htmlContent = "" ∧
    (((createTemplate c7Input "id-1" "t0").varNames.Nodup ∧
      ∀ v, v ∈ (createTemplate c7Input "id-1" "t0").varNames ↔
        occursToken v c7Input.htmlContent ∨ occursToken v c7Input.textContent) ∧
     ((otruthy c7Update.htmlContent || otruthy c7Update.textContent) = true →
       (updateTemplate c7Tmpl c7Update "t1").varNames.Nodup ∧
       ∀ v, v ∈ (updateTemplate c7Tmpl c7Update "t1").varNames ↔
         occursToken v (jsOrStr c7Update.htmlContent c7Tmpl.htmlContent) ∨
         occursToken v (jsOrStr c7Update.textContent c7Tmpl.textContent)) ∧
     ((otruthy c7Update.htmlContent || otruthy c7Update.textContent) = false →
       (updateTemplate c7Tmpl c7Update "t1").varNames = c7Tmpl.varNames) ∧
     ((c7Update.htmlContent = none ∨ ∃ h, c7Update.htmlContent = some h ∧ h ≠ "") →
       jsOrStr c7Update.htmlContent c7Tmpl.htmlContent
         = (updateTemplate c7Tmpl c7Update "t1").htmlContent) ∧
     ((c7Update.textContent = none ∨ ∃ h, c7Update.textContent = some h ∧ h ≠ "") →
       jsOrStr c7Update.textContent c7Tmpl.textContent
         = (updateTemplate c7Tmpl c7Update "t1").textContent)) :=
  ⟨by decide, by decide, by decide,
    templateVariablesTrackBodies c7Input "id-1" "t0" c7Tmpl c7Update "t1"⟩

/-- Claim C8 amended witness: the specification's own example name. -/
theorem nameSplitSingleSpacesWitness :
    (["Ada", "Lovelace"] : List String) ≠ [] ∧
    (∀ t ∈ (["Ada", "Lovelace"] : List String), t.data ≠ [] ∧ ∀ c ∈ t.data, c ≠ ' ') ∧
    (jsFirstName (joinTokens ["Ada", "Lovelace"])
        = (["Ada", "Lovelace"] : List String).headD "" ∧
     jsLastName (joinTokens ["Ada", "Lovelace"])
        = joinTokens ((["Ada", "Lovelace"] : List String).drop 1)) :=
  ⟨by decide, by decide,
    nameSplitSingleSpaces ["Ada", "Lovelace"] (by decide) (by decide)⟩

/-- Claim C9 witness: a concrete chill-mode run with in-range random
draws. -/
theorem pacingPolicyValuesWitness :
    sampleSettings.aws = some {} ∧ reliableRecorder wPairsA ∧
    (∀ p ∈ wPairsA, 0 ≤ p.2.rand ∧ p.2.rand < 1) ∧
    ((∀ d ∈ (handleSendEmails (some sampleTemplate) wPairsA (some sampleSettings)
          (some sampleSender) true).delays,
        (true = true → ∃ q : ℚ, d = some q ∧ 2000 ≤ q ∧ q < 3000) ∧
        (true = false →
          (sampleSettings.rateLimitPerSecond = none ∨
            sampleSettings.rateLimitPerSecond = some 0) → d = none) ∧
        (true = false → ∀ r : ℚ, sampleSettings.rateLimitPerSecond = some r → r ≠ 0 →
          d = some (1000 / r))) ∧
     (∀ q : ℚ, 2000 ≤ q → q < 3000 →
       ∃ rand : ℚ, 0 ≤ rand ∧ rand < 1 ∧
         stepDelay { chillMode := true,
                     rateLimitPerSecond := sampleSettings.rateLimitPerSecond } rand
           = some q)) :=
  ⟨rfl, by decide, by decide,
    pacingPolicyValues sampleTemplate sampleSender sampleSettings {} true
      wPairsA rfl (by decide) (by decide)⟩
